import Mathlib

/-!
Verification development of the kudu client library's write path
(session, batcher, error collector), location cache and scanner.
The repository ships the public header src/src/kudu/client/client.h;
the implementation files (client.cc, batcher, meta cache) are not part
of the staged sources, so the operational definitions below are
modelled from the specification's words and the header's doc comments.
-/

namespace KuduClientModel

/-- Modelled from the spec: the status taxonomy of section 7 of the spec
(the Status class of util/status.h is not among the staged sources).
`ioError` stands for the summary bad status Flush returns when the
flushed batch produced per-operation errors. -/
inductive Status
  | ok
  | invalidArgument
  | notFound
  | alreadyPresent
  | notLeader
  | tabletNotFound
  | timedOut
  | serviceUnavailable
  | illegalState
  | aborted
  | incomplete
  | ioError
  deriving DecidableEq, Repr

/-- Modelled from the spec: a write operation (KuduWriteOperation of
write_op.h, not among the staged sources) is an immutable value carrying
an operation id (standing for table reference, row bytes and kind) and
its encoded byte size, which feeds the session's buffer accounting. -/
structure KuduWriteOperation where
  opId : Nat
  sizeBytes : Nat
  deriving DecidableEq, Repr

/-- Modelled from the spec: the client-side history of a failed operation,
recording whether the op was dispatched to a tablet server and whether a
definitive server response was received, together with the error status.
A rejection before dispatch has dispatched = false; a deterministic
server reject has dispatched = true and responseReceived = true; a
timeout or connection reset after send has dispatched = true and
responseReceived = false. -/
structure OpFailure where
  dispatched : Bool
  responseReceived : Bool
  status : Status
  deriving DecidableEq, Repr

/-- KuduError of client.h lines 311-346: the failed operation (owned,
releasable once), the status, and the possibly-successful flag. -/
structure KuduError where
  failedOp : Option KuduWriteOperation
  errStatus : Status
  possiblySuccessful : Bool
  deriving DecidableEq, Repr

/-- Modelled from the spec: constructing a KuduError from a failed op
and its failure history; the possibly-successful flag is set exactly
when the op was dispatched but no definitive response was received. -/
def newError (op : KuduWriteOperation) (f : OpFailure) : KuduError :=
  { failedOp := some op
    errStatus := f.status
    possiblySuccessful := f.dispatched && !f.responseReceived }

/-- KuduError::was_possibly_successful (client.h lines 325-333). -/
def KuduError.was_possibly_successful (e : KuduError) : Bool :=
  e.possiblySuccessful

/-- KuduError::release_failed_op (client.h lines 321-323): the caller
takes ownership of the failed op; the error afterwards owns none. -/
def KuduError.release_failed_op (e : KuduError) :
    Option KuduWriteOperation × KuduError :=
  (e.failedOp, { e with failedOp := none })

/-- KuduSession::FlushMode (client.h lines 409-436). -/
inductive FlushMode
  | AUTO_FLUSH_SYNC
  | AUTO_FLUSH_BACKGROUND
  | MANUAL_FLUSH
  deriving DecidableEq, Repr

/-- Modelled from the spec: the outcome the cluster gives one write
operation once dispatched: success, or a failure with its history. -/
inductive OpOutcome
  | success
  | failure (f : OpFailure)
  deriving DecidableEq, Repr

/-- Modelled from the spec: the session state of section 4.3 -- flush
mode, mutation buffer limit, the bounded error collector (capacity
maxErrors with an overflow flag), the buffered (not yet dispatched)
operations and the en-route (dispatched, not yet resolved) operations. -/
structure KuduSession where
  mode : FlushMode
  mutationBufferSpace : Nat
  maxErrors : Nat
  buffered : List KuduWriteOperation
  enRoute : List KuduWriteOperation
  errors : List KuduError
  overflowed : Bool
  deriving DecidableEq, Repr

/-- Modelled from the spec: the bounded error collector is a ring of at
most maxErrors errors; on eviction of the oldest the overflow flag is
set (spec section 4.3, error collector). -/
def addError (s : KuduSession) (e : KuduError) : KuduSession :=
  if s.errors.length < s.maxErrors then
    { s with errors := s.errors ++ [e] }
  else
    { s with errors := s.errors.tail ++ [e], overflowed := true }

/-- Accumulated byte size of the buffered operations. -/
def bufferedBytes (s : KuduSession) : Nat :=
  (s.buffered.map KuduWriteOperation.sizeBytes).sum

/-- The error recorded for an op rejected by MANUAL_FLUSH buffer
overflow: never dispatched, status Incomplete. -/
def rejectedOverflow (op : KuduWriteOperation) : KuduError :=
  newError op { dispatched := false, responseReceived := false, status := Status.incomplete }

/-- Modelled from the spec: KuduSession::Apply (client.h lines 471-484
and spec section 4.3). `outcome` stands for the cluster's response to a
dispatched op. AUTO_FLUSH_SYNC flushes the single op inline;
AUTO_FLUSH_BACKGROUND puts the op immediately en route (client.h lines
556-559: in non-manual modes data is immediately put en route);
MANUAL_FLUSH buffers the op unless it would overflow the mutation
buffer, in which case Apply fails with Incomplete and the rejected op
goes to the error collector. -/
def KuduSession.Apply (outcome : KuduWriteOperation → OpOutcome)
    (s : KuduSession) (op : KuduWriteOperation) : Status × KuduSession :=
  match s.mode with
  | FlushMode.AUTO_FLUSH_SYNC =>
      match outcome op with
      | OpOutcome.success => (Status.ok, s)
      | OpOutcome.failure f => (f.status, addError s (newError op f))
  | FlushMode.AUTO_FLUSH_BACKGROUND =>
      (Status.ok, { s with enRoute := s.enRoute ++ [op] })
  | FlushMode.MANUAL_FLUSH =>
      if s.mutationBufferSpace < bufferedBytes s + op.sizeBytes then
        (Status.incomplete, addError s (rejectedOverflow op))
      else
        (Status.ok, { s with buffered := s.buffered ++ [op] })

/-- The per-operation errors a batch of operations produces under the
cluster outcome function. -/
def flushErrors (outcome : KuduWriteOperation → OpOutcome)
    (ops : List KuduWriteOperation) : List KuduError :=
  ops.filterMap fun op =>
    match outcome op with
    | OpOutcome.success => none
    | OpOutcome.failure f => some (newError op f)

/-- Modelled from the spec: KuduSession::Flush (client.h lines 501-534,
spec section 7): dispatches the buffered operations, waits for them and
for the en-route operations, routes per-row failures into the error
collector, and returns a summary bad status exactly when the flushed
batch produced at least one per-operation error. -/
def KuduSession.Flush (outcome : KuduWriteOperation → OpOutcome)
    (s : KuduSession) : Status × KuduSession :=
  let es := flushErrors outcome (s.buffered ++ s.enRoute)
  let s' := es.foldl addError { s with buffered := [], enRoute := [] }
  (if es.isEmpty then Status.ok else Status.ioError, s')

/-- KuduSession::Close (client.h lines 537-539): fails with IllegalState
exactly when there are unflushed (buffered) or in-flight (en-route)
operations. -/
def KuduSession.Close (s : KuduSession) : Status :=
  if s.buffered.isEmpty && s.enRoute.isEmpty then Status.ok
  else Status.illegalState

/-- KuduSession::HasPendingOperations (client.h lines 541-548): true if
there are buffered or en-route operations. -/
def KuduSession.HasPendingOperations (s : KuduSession) : Bool :=
  !s.buffered.isEmpty || !s.enRoute.isEmpty

/-- KuduSession::CountBufferedOperations (client.h lines 550-562):
operations not yet flushed, i.e. not yet en route. -/
def KuduSession.CountBufferedOperations (s : KuduSession) : Nat :=
  s.buffered.length

/-- KuduSession::CountPendingErrors (client.h lines 564-568). -/
def KuduSession.CountPendingErrors (s : KuduSession) : Nat :=
  s.errors.length

/-- KuduSession::GetPendingErrors (client.h lines 570-576): drains the
collector to the caller, reporting and resetting the overflow flag. -/
def KuduSession.GetPendingErrors (s : KuduSession) :
    (List KuduError × Bool) × KuduSession :=
  ((s.errors, s.overflowed), { s with errors := [], overflowed := false })

/-- KuduSession::SetFlushMode (client.h lines 438-440): requires no
pending writes. -/
def KuduSession.SetFlushMode (s : KuduSession) (m : FlushMode) :
    Status × KuduSession :=
  if s.HasPendingOperations then (Status.illegalState, s)
  else (Status.ok, { s with mode := m })

/-- KuduSession::SetMutationBufferSpace (client.h lines 442-453). -/
def KuduSession.SetMutationBufferSpace (s : KuduSession) (n : Nat) : KuduSession :=
  { s with mutationBufferSpace := n }

/-- The mode invariant of spec section 4.3: in AUTO_FLUSH_SYNC the
session's buffer is never non-empty and nothing is en route once Apply
returns; in AUTO_FLUSH_BACKGROUND nothing is ever buffered (data is
immediately put en route, client.h lines 556-559). -/
def ModeInvariant (s : KuduSession) : Prop :=
  (s.mode = FlushMode.AUTO_FLUSH_SYNC → s.buffered = [] ∧ s.enRoute = []) ∧
  (s.mode = FlushMode.AUTO_FLUSH_BACKGROUND → s.buffered = [])

/-- Modelled from the spec: scanner cursor state of section 4.4 --
the row blocks of the tablets intersecting the scan's key range in key
order, the index of the current tablet, the number of rows already
fetched from it, and the batch size hint. -/
structure KuduScanner where
  tablets : List (List Nat)
  curTablet : Nat
  curPos : Nat
  batchSize : Nat
  deriving DecidableEq, Repr

/-- KuduScanner::HasMoreRows (client.h lines 666-670): true if the
current tablet has unfetched rows or at least one more tablet is left
to scan, even if that tablet has no data. -/
def KuduScanner.HasMoreRows (sc : KuduScanner) : Bool :=
  decide (sc.curPos < (sc.tablets.getD sc.curTablet []).length) ||
    decide (sc.curTablet + 1 < sc.tablets.length)

/-- Modelled from the spec: KuduScanner::NextBatch (spec section 4.4):
returns up to batchSize rows from the current tablet; when the tablet
is exhausted the scanner advances to the next tablet intersecting the
range. -/
def KuduScanner.NextBatch (sc : KuduScanner) : List Nat × KuduScanner :=
  let rows := (sc.tablets.getD sc.curTablet []).drop sc.curPos
  let batch := rows.take sc.batchSize
  if batch.length < rows.length then
    (batch, { sc with curPos := sc.curPos + batch.length })
  else
    (batch, { sc with curTablet := sc.curTablet + 1, curPos := 0 })

/-- The current tablet still holds rows the scanner has not fetched. -/
def CurrentTabletHasMoreData (sc : KuduScanner) : Prop :=
  (sc.tablets.getD sc.curTablet []).drop sc.curPos ≠ []

/-- Additional tablets intersecting the scan's key range remain. -/
def TabletsRemain (sc : KuduScanner) : Prop :=
  sc.curTablet + 1 < sc.tablets.length

/-! ## Location cache (meta cache) with lookup coalescing -/

/-- Observable events of the location cache: a master RPC issued for a
(table, key), or a lookup served to a caller. -/
inductive MEvent
  | masterRpc (k : Nat × Nat)
  | served (caller : Nat) (k : Nat × Nat)
  deriving DecidableEq, Repr

/-- Interleaved cache commands: a Lookup by a caller for a (table, key),
or the completion of an in-flight master refresh for a key. -/
inductive MCmd
  | lookup (caller : Nat) (k : Nat × Nat)
  | refreshDone (k : Nat × Nat)
  deriving DecidableEq, Repr

/-- Modelled from the spec: location cache state (spec section 4.1; the
meta cache implementation is not among the staged sources): the cached
keys and the in-flight refreshes, each with its per-key waiter list. -/
structure MetaCacheSt where
  cached : List (Nat × Nat)
  inflight : List ((Nat × Nat) × List Nat)
  deriving DecidableEq, Repr

def MetaCacheSt.init : MetaCacheSt := ⟨[], []⟩

/-- The keys with an in-flight master refresh. -/
def inflightKeys (s : MetaCacheSt) : List (Nat × Nat) :=
  s.inflight.map Prod.fst

/-- Modelled from the spec: one step of the location cache (spec section
4.1). A lookup on a cached key is served from the cache; a lookup on a
key with an in-flight refresh suspends the caller on that key's waiter
list and issues nothing; only a lookup on a key neither cached nor in
flight issues a master RPC and registers the refresh. A refresh
completion installs the key in the cache and serves all waiters. -/
def mstep (s : MetaCacheSt) : MCmd → MetaCacheSt × List MEvent
  | MCmd.lookup c k =>
      if k ∈ s.cached then (s, [MEvent.served c k])
      else if k ∈ inflightKeys s then
        (⟨s.cached, s.inflight.map fun p => if p.1 = k then (p.1, p.2 ++ [c]) else p⟩,
         [])
      else
        (⟨s.cached, s.inflight ++ [(k, [c])]⟩, [MEvent.masterRpc k])
  | MCmd.refreshDone k =>
      match s.inflight.find? (fun p => decide (p.1 = k)) with
      | some p =>
          (⟨s.cached ++ [k], s.inflight.filter fun q => decide (q.1 ≠ k)⟩,
           p.2.map fun c => MEvent.served c k)
      | none => (s, [])

/-- Run a command list from a cache state, collecting the event trace. -/
def mrunFrom : MetaCacheSt → List MCmd → MetaCacheSt × List MEvent
  | s, [] => (s, [])
  | s, c :: cs =>
      let r := mstep s c
      let rest := mrunFrom r.1 cs
      (rest.1, r.2 ++ rest.2)

/-- Run a command list from the empty cache. -/
def mrun (cmds : List MCmd) : MetaCacheSt × List MEvent :=
  mrunFrom MetaCacheSt.init cmds

/-! ## Batcher flush and completion-callback state machine -/

/-- Observable events of a session's batchers: an op accepted by the
open batcher, a batcher closed by FlushAsync, the termination of one of
a batcher's ops, and a batcher's completion callback firing. -/
inductive Event
  | applied (b : Nat) (op : Nat)
  | flushed (b : Nat)
  | terminated (b : Nat) (op : Nat)
  | callback (b : Nat)
  deriving DecidableEq, Repr

/-- Modelled from the spec: one batcher (spec section 4.2): the ops it
accepted, those not yet terminated, whether FlushAsync closed it
(Open -> Flushing) and whether its completion callback has fired. -/
structure BatcherSt where
  accepted : List Nat
  outstanding : List Nat
  flushing : Bool
  fired : Bool
  deriving DecidableEq, Repr

def BatcherSt.fresh : BatcherSt := ⟨[], [], false, false⟩

/-- Modelled from the spec: the batchers of one session: the closed
(flushed) batchers indexed by id below nclosed, and the single open
batcher, whose id is nclosed (at most one batcher is Open at any
instant, spec section 3). -/
structure FlushSys where
  nclosed : Nat
  closedF : Nat → BatcherSt
  cur : BatcherSt

def FlushSys.init : FlushSys := ⟨0, fun _ => BatcherSt.fresh, BatcherSt.fresh⟩

/-- Interleaved session commands: Apply an op, FlushAsync the open
batcher, or delivery of the response terminating op of batcher b. -/
inductive Cmd
  | apply (op : Nat)
  | flushAsync
  | respond (b : Nat) (op : Nat)
  deriving DecidableEq, Repr

/-- Apply: the open batcher accepts the op. -/
def stepApply (s : FlushSys) (op : Nat) : FlushSys × List Event :=
  (⟨s.nclosed, s.closedF,
    { s.cur with accepted := s.cur.accepted ++ [op],
                 outstanding := s.cur.outstanding ++ [op] }⟩,
   [Event.applied s.nclosed op])

/-- FlushAsync (client.h lines 510-535): closes the current batcher,
installs a fresh open one and ties the completion callback to the
closed batcher; with nothing outstanding (no ops applied since the
previous FlushAsync) the callback fires immediately, in this very step. -/
def stepFlush (s : FlushSys) : FlushSys × List Event :=
  if s.cur.outstanding.isEmpty then
    (⟨s.nclosed + 1,
      Function.update s.closedF s.nclosed
        { s.cur with flushing := true, fired := true },
      BatcherSt.fresh⟩,
     [Event.flushed s.nclosed, Event.callback s.nclosed])
  else
    (⟨s.nclosed + 1,
      Function.update s.closedF s.nclosed { s.cur with flushing := true },
      BatcherSt.fresh⟩,
     [Event.flushed s.nclosed])

/-- A response arrives terminating op of closed batcher b; when the
last outstanding op of the batcher terminates, its completion callback
fires, exactly then and exactly once. Responses for unknown batchers or
ops are discarded. -/
def stepRespond (s : FlushSys) (b : Nat) (op : Nat) : FlushSys × List Event :=
  if b < s.nclosed then
    if op ∈ (s.closedF b).outstanding then
      if ((s.closedF b).outstanding.filter fun o => decide (o ≠ op)).isEmpty
          && !(s.closedF b).fired then
        (⟨s.nclosed,
          Function.update s.closedF b
            { s.closedF b with
              outstanding := (s.closedF b).outstanding.filter fun o => decide (o ≠ op),
              fired := true },
          s.cur⟩,
         [Event.terminated b op, Event.callback b])
      else
        (⟨s.nclosed,
          Function.update s.closedF b
            { s.closedF b with
              outstanding := (s.closedF b).outstanding.filter fun o => decide (o ≠ op) },
          s.cur⟩,
         [Event.terminated b op])
    else (s, [])
  else (s, [])

def step (s : FlushSys) : Cmd → FlushSys × List Event
  | Cmd.apply op => stepApply s op
  | Cmd.flushAsync => stepFlush s
  | Cmd.respond b op => stepRespond s b op

/-- Run a command list from a state, collecting the event trace. -/
def runFrom : FlushSys → List Cmd → FlushSys × List Event
  | s, [] => (s, [])
  | s, c :: cs =>
      let r := step s c
      let rest := runFrom r.1 cs
      (rest.1, r.2 ++ rest.2)

/-- Run a command list from the initial session state. -/
def run (cmds : List Cmd) : FlushSys × List Event :=
  runFrom FlushSys.init cmds

/-- The per-closed-batcher invariant tying batcher b's state to the
trace: it is flushing and was flushed; its accepted set is the set of
its applied events; outstanding ops are accepted and not yet
terminated; accepted ops are outstanding or terminated; the callback
fired exactly when (and exactly as often as) the trace says; and the
callback fires exactly when nothing is outstanding. -/
structure ClosedOK (b : Nat) (B : BatcherSt) (tr : List Event) : Prop where
  isFlushing : B.flushing = true
  flushedEv : Event.flushed b ∈ tr
  acceptedIff : ∀ op, op ∈ B.accepted ↔ Event.applied b op ∈ tr
  outSub : ∀ op, op ∈ B.outstanding → op ∈ B.accepted
  accTerm : ∀ op, op ∈ B.accepted → op ∈ B.outstanding ∨ Event.terminated b op ∈ tr
  outNoTerm : ∀ op, op ∈ B.outstanding → Event.terminated b op ∉ tr
  firedIff : B.fired = true ↔ Event.callback b ∈ tr
  cbCount : tr.count (Event.callback b) = if B.fired then 1 else 0
  emptyFired : B.outstanding = [] → B.fired = true
  firedEmpty : B.fired = true → B.outstanding = []

/-- The global invariant of the batcher state machine over its trace. -/
structure Inv (s : FlushSys) (tr : List Event) : Prop where
  closedOK : ∀ b, b < s.nclosed → ClosedOK b (s.closedF b) tr
  curFlushing : s.cur.flushing = false
  curFired : s.cur.fired = false
  curOut : s.cur.outstanding = s.cur.accepted
  curAcc : ∀ op, op ∈ s.cur.accepted ↔ Event.applied s.nclosed op ∈ tr
  termLt : ∀ b op, Event.terminated b op ∈ tr → b < s.nclosed
  flushedLt : ∀ b, Event.flushed b ∈ tr → b < s.nclosed
  cbLt : ∀ b, Event.callback b ∈ tr → b < s.nclosed
  appliedLe : ∀ b op, Event.applied b op ∈ tr → b ≤ s.nclosed

/-! ## Helper lemmas on the error collector -/

theorem addError_mem (s : KuduSession) (e : KuduError) :
    e ∈ (addError s e).errors := by
  unfold addError
  split <;> simp

theorem addError_buffered (s : KuduSession) (e : KuduError) :
    (addError s e).buffered = s.buffered := by
  unfold addError; split <;> rfl

theorem addError_enRoute (s : KuduSession) (e : KuduError) :
    (addError s e).enRoute = s.enRoute := by
  unfold addError; split <;> rfl

theorem addError_mode (s : KuduSession) (e : KuduError) :
    (addError s e).mode = s.mode := by
  unfold addError; split <;> rfl

theorem addError_maxErrors (s : KuduSession) (e : KuduError) :
    (addError s e).maxErrors = s.maxErrors := by
  unfold addError; split <;> rfl

theorem addError_errors_of_room (s : KuduSession) (e : KuduError)
    (h : s.errors.length < s.maxErrors) :
    (addError s e).errors = s.errors ++ [e] := by
  unfold addError
  rw [if_pos h]

theorem foldl_addError_buffered (es : List KuduError) (s : KuduSession) :
    (es.foldl addError s).buffered = s.buffered := by
  induction es generalizing s with
  | nil => rfl
  | cons e es ih => rw [List.foldl_cons, ih, addError_buffered]

theorem foldl_addError_enRoute (es : List KuduError) (s : KuduSession) :
    (es.foldl addError s).enRoute = s.enRoute := by
  induction es generalizing s with
  | nil => rfl
  | cons e es ih => rw [List.foldl_cons, ih, addError_enRoute]

theorem foldl_addError_errors (es : List KuduError) (s : KuduSession)
    (h : s.errors.length + es.length ≤ s.maxErrors) :
    (es.foldl addError s).errors = s.errors ++ es := by
  induction es generalizing s with
  | nil => simp
  | cons e es ih =>
      rw [List.foldl_cons]
      have hroom : s.errors.length < s.maxErrors := by
        simp [List.length_cons] at h
        omega
      have h' : ((addError s e).errors).length + es.length ≤ (addError s e).maxErrors := by
        rw [addError_errors_of_room s e hroom, addError_maxErrors]
        simp at h ⊢
        omega
      rw [ih (addError s e) h', addError_errors_of_room s e hroom]
      simp

theorem flushErrors_eq_nil_iff (outcome : KuduWriteOperation → OpOutcome)
    (ops : List KuduWriteOperation) :
    flushErrors outcome ops = [] ↔ ∀ op ∈ ops, outcome op = OpOutcome.success := by
  unfold flushErrors
  rw [List.filterMap_eq_nil_iff]
  constructor
  · intro h op hop
    have := h op hop
    cases hoc : outcome op with
    | success => rfl
    | failure f => rw [hoc] at this; simp at this
  · intro h op hop
    rw [h op hop]

theorem session_eta (s : KuduSession) (hb : s.buffered = []) (he : s.enRoute = []) :
    { s with buffered := ([] : List KuduWriteOperation),
             enRoute := ([] : List KuduWriteOperation) } = s := by
  cases s
  simp_all

theorem Flush_buffered (outcome : KuduWriteOperation → OpOutcome) (s : KuduSession) :
    (KuduSession.Flush outcome s).2.buffered = [] := by
  simp only [KuduSession.Flush]
  rw [foldl_addError_buffered]

theorem Flush_enRoute (outcome : KuduWriteOperation → OpOutcome) (s : KuduSession) :
    (KuduSession.Flush outcome s).2.enRoute = [] := by
  simp only [KuduSession.Flush]
  rw [foldl_addError_enRoute]

theorem ModeInvariant_addError (s : KuduSession) (e : KuduError)
    (hinv : ModeInvariant s) : ModeInvariant (addError s e) := by
  constructor
  · intro h
    rw [addError_mode] at h
    rw [addError_buffered, addError_enRoute]
    exact hinv.1 h
  · intro h
    rw [addError_mode] at h
    rw [addError_buffered]
    exact hinv.2 h

theorem Apply_preserves_ModeInvariant (outcome : KuduWriteOperation → OpOutcome)
    (s : KuduSession) (op : KuduWriteOperation) (hinv : ModeInvariant s) :
    ModeInvariant (KuduSession.Apply outcome s op).2 := by
  obtain ⟨m, sp, mx, bu, er, es, ov⟩ := s
  cases m with
  | AUTO_FLUSH_SYNC =>
      show ModeInvariant (KuduSession.Apply outcome _ op).2
      unfold KuduSession.Apply
      cases outcome op with
      | success => exact hinv
      | failure f => exact ModeInvariant_addError _ _ hinv
  | AUTO_FLUSH_BACKGROUND =>
      unfold KuduSession.Apply
      simp only [ModeInvariant] at hinv ⊢
      simp_all
  | MANUAL_FLUSH =>
      unfold KuduSession.Apply
      simp only
      split
      · exact ModeInvariant_addError _ _ hinv
      · simp [ModeInvariant]

theorem Flush_preserves_ModeInvariant (outcome : KuduWriteOperation → OpOutcome)
    (s : KuduSession) : ModeInvariant (KuduSession.Flush outcome s).2 := by
  constructor
  · intro _
    exact ⟨Flush_buffered outcome s, Flush_enRoute outcome s⟩
  · intro _
    exact Flush_buffered outcome s

theorem SetFlushMode_preserves_ModeInvariant (s : KuduSession) (m : FlushMode)
    (hinv : ModeInvariant s) : ModeInvariant (s.SetFlushMode m).2 := by
  obtain ⟨m0, sp, mx, bu, er, es, ov⟩ := s
  simp only [KuduSession.SetFlushMode, KuduSession.HasPendingOperations]
  split
  · exact hinv
  · next h =>
      simp only [Bool.or_eq_true, Bool.not_eq_true', List.isEmpty_iff] at h
      push_neg at h
      rcases hb : bu with _ | ⟨x, xs⟩
      · rcases he : er with _ | ⟨y, ys⟩
        · simp [ModeInvariant]
        · rw [hb, he] at h
          simp at h
      · rw [hb] at h
        simp at h

/-! ## Claim theorems about the session -/

/-- C2: for every session in any flush mode, Flush returns a bad
(non-OK) status exactly when the flushed batch produced at least one
per-operation error; Flush itself returns only the summary status,
while each failed operation's error is retrievable by GetPendingErrors
(provided the bounded collector did not overflow). -/
theorem Flush_bad_iff_op_errors : ∀ (outcome : KuduWriteOperation → OpOutcome)
    (s : KuduSession),
    (((KuduSession.Flush outcome s).1 ≠ Status.ok) ↔
      ∃ op, op ∈ s.buffered ++ s.enRoute ∧ outcome op ≠ OpOutcome.success) ∧
    (∀ op f, op ∈ s.buffered ++ s.enRoute → outcome op = OpOutcome.failure f →
      s.errors.length + (flushErrors outcome (s.buffered ++ s.enRoute)).length ≤
        s.maxErrors →
      newError op f ∈ ((KuduSession.Flush outcome s).2.GetPendingErrors).1.1) := by
  intro outcome s
  constructor
  · simp only [KuduSession.Flush]
    constructor
    · intro h
      by_contra hc
      push_neg at hc
      rw [(flushErrors_eq_nil_iff outcome _).2 hc] at h
      simp at h
    · rintro ⟨op, hop, hne⟩ h
      split at h
      · next hnil =>
          rw [List.isEmpty_iff] at hnil
          exact hne ((flushErrors_eq_nil_iff outcome _).1 hnil op hop)
      · exact Status.noConfusion h
  · intro op f hop hoc hcap
    have hmem : newError op f ∈ flushErrors outcome (s.buffered ++ s.enRoute) := by
      unfold flushErrors
      rw [List.mem_filterMap]
      exact ⟨op, hop, by rw [hoc]⟩
    simp only [KuduSession.Flush, KuduSession.GetPendingErrors]
    rw [foldl_addError_errors _ _ (by simpa using hcap)]
    simp [hmem]

/-- C2 witness: a one-op session whose op fails with a deterministic
reject makes Flush return a bad status, and the error is retrievable. -/
theorem Flush_bad_iff_op_errors_witness :
    ((KuduSession.Flush
        (fun _ => OpOutcome.failure ⟨true, true, Status.alreadyPresent⟩)
        ⟨FlushMode.MANUAL_FLUSH, 1024, 8, [⟨1, 64⟩], [], [], false⟩).1 ≠ Status.ok ↔
      ∃ op, op ∈ ([⟨1, 64⟩] ++ [] : List KuduWriteOperation) ∧
        (fun _ => OpOutcome.failure ⟨true, true, Status.alreadyPresent⟩) op ≠
          OpOutcome.success) ∧
    (∀ op f, op ∈ ([⟨1, 64⟩] ++ [] : List KuduWriteOperation) →
      (fun _ => OpOutcome.failure ⟨true, true, Status.alreadyPresent⟩) op =
        OpOutcome.failure f →
      (([] : List KuduError)).length +
        (flushErrors (fun _ => OpOutcome.failure ⟨true, true, Status.alreadyPresent⟩)
          ([⟨1, 64⟩] ++ [])).length ≤ 8 →
      newError op f ∈
        (((KuduSession.Flush
            (fun _ => OpOutcome.failure ⟨true, true, Status.alreadyPresent⟩)
            ⟨FlushMode.MANUAL_FLUSH, 1024, 8, [⟨1, 64⟩], [], [], false⟩).2).GetPendingErrors).1.1) :=
  Flush_bad_iff_op_errors
    (fun _ => OpOutcome.failure ⟨true, true, Status.alreadyPresent⟩)
    ⟨FlushMode.MANUAL_FLUSH, 1024, 8, [⟨1, 64⟩], [], [], false⟩

/-- C3: in MANUAL_FLUSH mode, an Apply whose op would push the buffered
byte count past the mutation buffer limit returns Incomplete, leaves
the buffered and en-route operations unchanged, and puts the rejected
op into the error collector (retrievable by GetPendingErrors) with
was_possibly_successful = false. -/
theorem manual_apply_overflow (outcome : KuduWriteOperation → OpOutcome)
    (s : KuduSession) (op : KuduWriteOperation)
    (hm : s.mode = FlushMode.MANUAL_FLUSH)
    (hover : s.mutationBufferSpace < bufferedBytes s + op.sizeBytes) :
    (KuduSession.Apply outcome s op).1 = Status.incomplete ∧
    (KuduSession.Apply outcome s op).2.buffered = s.buffered ∧
    (KuduSession.Apply outcome s op).2.enRoute = s.enRoute ∧
    rejectedOverflow op ∈ ((KuduSession.Apply outcome s op).2.GetPendingErrors).1.1 ∧
    (rejectedOverflow op).failedOp = some op ∧
    (rejectedOverflow op).was_possibly_successful = false := by
  have key : KuduSession.Apply outcome s op =
      (Status.incomplete, addError s (rejectedOverflow op)) := by
    unfold KuduSession.Apply
    rw [hm]
    simp only [if_pos hover]
  rw [key]
  refine ⟨rfl, addError_buffered _ _, addError_enRoute _ _, ?_, rfl, rfl⟩
  unfold KuduSession.GetPendingErrors
  exact addError_mem _ _

/-- C3 witness: a session with a 100-byte buffer holding 64 buffered
bytes rejects a 64-byte op with Incomplete. -/
theorem manual_apply_overflow_witness :
    (KuduSession.Apply (fun _ => OpOutcome.success)
      ⟨FlushMode.MANUAL_FLUSH, 100, 8, [⟨1, 64⟩], [], [], false⟩ ⟨2, 64⟩).1 =
      Status.incomplete ∧
    (KuduSession.Apply (fun _ => OpOutcome.success)
      ⟨FlushMode.MANUAL_FLUSH, 100, 8, [⟨1, 64⟩], [], [], false⟩ ⟨2, 64⟩).2.buffered =
      [⟨1, 64⟩] ∧
    (KuduSession.Apply (fun _ => OpOutcome.success)
      ⟨FlushMode.MANUAL_FLUSH, 100, 8, [⟨1, 64⟩], [], [], false⟩ ⟨2, 64⟩).2.enRoute =
      [] ∧
    rejectedOverflow ⟨2, 64⟩ ∈
      ((KuduSession.Apply (fun _ => OpOutcome.success)
        ⟨FlushMode.MANUAL_FLUSH, 100, 8, [⟨1, 64⟩], [], [], false⟩
        ⟨2, 64⟩).2.GetPendingErrors).1.1 ∧
    (rejectedOverflow ⟨2, 64⟩).failedOp = some ⟨2, 64⟩ ∧
    (rejectedOverflow ⟨2, 64⟩).was_possibly_successful = false :=
  manual_apply_overflow (fun _ => OpOutcome.success)
    ⟨FlushMode.MANUAL_FLUSH, 100, 8, [⟨1, 64⟩], [], [], false⟩ ⟨2, 64⟩
    rfl (by decide)

/-- C4: in AUTO_FLUSH_SYNC mode each Apply flushes its op inline, so
immediately after any Apply returns the session has no pending
operations and no buffered operations, and Flush is a no-op returning
OK. -/
theorem sync_apply_no_pending (outcome : KuduWriteOperation → OpOutcome)
    (s : KuduSession) (op : KuduWriteOperation)
    (hm : s.mode = FlushMode.AUTO_FLUSH_SYNC)
    (hinv : ModeInvariant s) :
    (KuduSession.Apply outcome s op).2.HasPendingOperations = false ∧
    (KuduSession.Apply outcome s op).2.CountBufferedOperations = 0 ∧
    KuduSession.Flush outcome s = (Status.ok, s) := by
  obtain ⟨hb, he⟩ := hinv.1 hm
  have happly : (KuduSession.Apply outcome s op).2.buffered = [] ∧
      (KuduSession.Apply outcome s op).2.enRoute = [] := by
    unfold KuduSession.Apply
    rw [hm]
    cases outcome op with
    | success => exact ⟨hb, he⟩
    | failure f =>
        simp only
        rw [addError_buffered, addError_enRoute]
        exact ⟨hb, he⟩
  refine ⟨?_, ?_, ?_⟩
  · unfold KuduSession.HasPendingOperations
    rw [happly.1, happly.2]
    rfl
  · unfold KuduSession.CountBufferedOperations
    rw [happly.1]
    rfl
  · have hes : flushErrors outcome (s.buffered ++ s.enRoute) = [] := by
      rw [hb, he]
      rfl
    simp only [KuduSession.Flush, hes, List.foldl_nil]
    rw [session_eta s hb he]
    simp

/-- C4 witness: applying one failing op in sync mode leaves no pending
or buffered operations and Flush is a no-op. -/
theorem sync_apply_no_pending_witness :
    (KuduSession.Apply (fun _ => OpOutcome.failure ⟨true, false, Status.timedOut⟩)
      ⟨FlushMode.AUTO_FLUSH_SYNC, 1024, 8, [], [], [], false⟩
      ⟨7, 64⟩).2.HasPendingOperations = false ∧
    (KuduSession.Apply (fun _ => OpOutcome.failure ⟨true, false, Status.timedOut⟩)
      ⟨FlushMode.AUTO_FLUSH_SYNC, 1024, 8, [], [], [], false⟩
      ⟨7, 64⟩).2.CountBufferedOperations = 0 ∧
    KuduSession.Flush (fun _ => OpOutcome.failure ⟨true, false, Status.timedOut⟩)
      ⟨FlushMode.AUTO_FLUSH_SYNC, 1024, 8, [], [], [], false⟩ =
      (Status.ok, ⟨FlushMode.AUTO_FLUSH_SYNC, 1024, 8, [], [], [], false⟩) :=
  sync_apply_no_pending (fun _ => OpOutcome.failure ⟨true, false, Status.timedOut⟩)
    ⟨FlushMode.AUTO_FLUSH_SYNC, 1024, 8, [], [], [], false⟩ ⟨7, 64⟩
    rfl ⟨fun _ => ⟨rfl, rfl⟩, fun h => by cases h⟩

/-- C6: Close fails with IllegalState exactly when the session has
buffered or in-flight operations, succeeds exactly when it has neither,
and Close immediately after a Flush (with no further Applies) succeeds. -/
theorem Close_illegalState_iff : ∀ (s : KuduSession)
    (outcome : KuduWriteOperation → OpOutcome),
    (KuduSession.Close s = Status.illegalState ↔
      (s.buffered ≠ [] ∨ s.enRoute ≠ [])) ∧
    (KuduSession.Close s = Status.ok ↔ (s.buffered = [] ∧ s.enRoute = [])) ∧
    KuduSession.Close (KuduSession.Flush outcome s).2 = Status.ok := by
  intro s outcome
  refine ⟨?_, ?_, ?_⟩
  · unfold KuduSession.Close
    split
    · next h =>
        simp only [Bool.and_eq_true, List.isEmpty_iff] at h
        simp [h.1, h.2]
    · next h =>
        simp only [Bool.and_eq_true, List.isEmpty_iff] at h
        constructor
        · intro _
          by_contra hc
          push_neg at hc
          exact h ⟨hc.1, hc.2⟩
        · intro _
          rfl
  · unfold KuduSession.Close
    split
    · next h =>
        simp only [Bool.and_eq_true, List.isEmpty_iff] at h
        simp [h.1, h.2]
    · next h =>
        simp only [Bool.and_eq_true, List.isEmpty_iff] at h
        constructor
        · intro hk
          exact Status.noConfusion hk
        · intro hc
          exact (h hc).elim
  · simp [KuduSession.Close, Flush_buffered, Flush_enRoute]

/-- C7: CountBufferedOperations is 0 immediately after a Flush in any
mode; in the two automatic modes it is always 0 (the mode invariant is
preserved by every session operation); and in MANUAL_FLUSH mode no
operation other than Flush decreases it. -/
theorem CountBuffered_flush_and_modes :
    ∀ (outcome : KuduWriteOperation → OpOutcome) (s : KuduSession)
      (op : KuduWriteOperation) (m : FlushMode) (n : Nat),
    (KuduSession.Flush outcome s).2.CountBufferedOperations = 0 ∧
    (ModeInvariant s → s.mode ≠ FlushMode.MANUAL_FLUSH →
      s.CountBufferedOperations = 0) ∧
    (ModeInvariant s →
      ModeInvariant (KuduSession.Apply outcome s op).2 ∧
      ModeInvariant (KuduSession.Flush outcome s).2 ∧
      ModeInvariant (s.SetFlushMode m).2 ∧
      ModeInvariant (s.SetMutationBufferSpace n) ∧
      ModeInvariant s.GetPendingErrors.2) ∧
    (s.mode = FlushMode.MANUAL_FLUSH →
      s.CountBufferedOperations ≤
        (KuduSession.Apply outcome s op).2.CountBufferedOperations ∧
      (s.SetFlushMode m).2.CountBufferedOperations = s.CountBufferedOperations ∧
      (s.SetMutationBufferSpace n).CountBufferedOperations =
        s.CountBufferedOperations ∧
      s.GetPendingErrors.2.CountBufferedOperations = s.CountBufferedOperations) := by
  intro outcome s op m n
  refine ⟨?_, ?_, ?_, ?_⟩
  · simp [KuduSession.CountBufferedOperations, Flush_buffered]
  · intro hinv hne
    unfold KuduSession.CountBufferedOperations
    cases hm : s.mode with
    | AUTO_FLUSH_SYNC => rw [(hinv.1 hm).1]; rfl
    | AUTO_FLUSH_BACKGROUND => rw [hinv.2 hm]; rfl
    | MANUAL_FLUSH => exact (hne hm).elim
  · intro hinv
    exact ⟨Apply_preserves_ModeInvariant outcome s op hinv,
      Flush_preserves_ModeInvariant outcome s,
      SetFlushMode_preserves_ModeInvariant s m hinv, hinv, hinv⟩
  · intro _
    refine ⟨?_, ?_, rfl, rfl⟩
    · obtain ⟨m0, sp, mx, bu, er, es, ov⟩ := s
      unfold KuduSession.Apply KuduSession.CountBufferedOperations
      cases m0 with
      | AUTO_FLUSH_SYNC =>
          cases outcome op with
          | success => exact Nat.le_refl _
          | failure f => rw [addError_buffered]
      | AUTO_FLUSH_BACKGROUND => exact Nat.le_refl _
      | MANUAL_FLUSH =>
          simp only
          split
          · rw [addError_buffered]
          · simp
    · unfold KuduSession.SetFlushMode
      split <;> rfl

/-- C7 witness: a manual-flush session with one buffered op keeps it
across Apply and drops to zero buffered ops after Flush. -/
theorem CountBuffered_flush_and_modes_witness :
    (KuduSession.Flush (fun _ => OpOutcome.success)
      ⟨FlushMode.MANUAL_FLUSH, 1024, 8, [⟨1, 64⟩], [], [], false⟩).2.CountBufferedOperations =
      0 ∧
    (ModeInvariant ⟨FlushMode.MANUAL_FLUSH, 1024, 8, [⟨1, 64⟩], [], [], false⟩ →
      KuduSession.mode ⟨FlushMode.MANUAL_FLUSH, 1024, 8, [⟨1, 64⟩], [], [], false⟩ ≠
        FlushMode.MANUAL_FLUSH →
      KuduSession.CountBufferedOperations
        ⟨FlushMode.MANUAL_FLUSH, 1024, 8, [⟨1, 64⟩], [], [], false⟩ = 0) ∧
    (ModeInvariant ⟨FlushMode.MANUAL_FLUSH, 1024, 8, [⟨1, 64⟩], [], [], false⟩ →
      ModeInvariant (KuduSession.Apply (fun _ => OpOutcome.success)
        ⟨FlushMode.MANUAL_FLUSH, 1024, 8, [⟨1, 64⟩], [], [], false⟩ ⟨2, 32⟩).2 ∧
      ModeInvariant (KuduSession.Flush (fun _ => OpOutcome.success)
        ⟨FlushMode.MANUAL_FLUSH, 1024, 8, [⟨1, 64⟩], [], [], false⟩).2 ∧
      ModeInvariant (KuduSession.SetFlushMode
        ⟨FlushMode.MANUAL_FLUSH, 1024, 8, [⟨1, 64⟩], [], [], false⟩
        FlushMode.AUTO_FLUSH_SYNC).2 ∧
      ModeInvariant (KuduSession.SetMutationBufferSpace
        ⟨FlushMode.MANUAL_FLUSH, 1024, 8, [⟨1, 64⟩], [], [], false⟩ 2048) ∧
      ModeInvariant (KuduSession.GetPendingErrors
        ⟨FlushMode.MANUAL_FLUSH, 1024, 8, [⟨1, 64⟩], [], [], false⟩).2) ∧
    (KuduSession.mode ⟨FlushMode.MANUAL_FLUSH, 1024, 8, [⟨1, 64⟩], [], [], false⟩ =
        FlushMode.MANUAL_FLUSH →
      KuduSession.CountBufferedOperations
          ⟨FlushMode.MANUAL_FLUSH, 1024, 8, [⟨1, 64⟩], [], [], false⟩ ≤
        (KuduSession.Apply (fun _ => OpOutcome.success)
          ⟨FlushMode.MANUAL_FLUSH, 1024, 8, [⟨1, 64⟩], [], [], false⟩
          ⟨2, 32⟩).2.CountBufferedOperations ∧
      (KuduSession.SetFlushMode
        ⟨FlushMode.MANUAL_FLUSH, 1024, 8, [⟨1, 64⟩], [], [], false⟩
        FlushMode.AUTO_FLUSH_SYNC).2.CountBufferedOperations =
        KuduSession.CountBufferedOperations
          ⟨FlushMode.MANUAL_FLUSH, 1024, 8, [⟨1, 64⟩], [], [], false⟩ ∧
      (KuduSession.SetMutationBufferSpace
        ⟨FlushMode.MANUAL_FLUSH, 1024, 8, [⟨1, 64⟩], [], [], false⟩
        2048).CountBufferedOperations =
        KuduSession.CountBufferedOperations
          ⟨FlushMode.MANUAL_FLUSH, 1024, 8, [⟨1, 64⟩], [], [], false⟩ ∧
      (KuduSession.GetPendingErrors
        ⟨FlushMode.MANUAL_FLUSH, 1024, 8, [⟨1, 64⟩], [], [], false⟩).2.CountBufferedOperations =
        KuduSession.CountBufferedOperations
          ⟨FlushMode.MANUAL_FLUSH, 1024, 8, [⟨1, 64⟩], [], [], false⟩) :=
  CountBuffered_flush_and_modes (fun _ => OpOutcome.success)
    ⟨FlushMode.MANUAL_FLUSH, 1024, 8, [⟨1, 64⟩], [], [], false⟩ ⟨2, 32⟩
    FlushMode.AUTO_FLUSH_SYNC 2048

/-- C8: was_possibly_successful is true exactly when the failed op was
dispatched to a server and no definitive response confirmed its
outcome, and false exactly when the op was rejected before dispatch or
the server answered with a deterministic reject. -/
theorem was_possibly_successful_iff : ∀ (op : KuduWriteOperation) (f : OpFailure),
    ((newError op f).was_possibly_successful = true ↔
      (f.dispatched = true ∧ f.responseReceived = false)) ∧
    ((newError op f).was_possibly_successful = false ↔
      (f.dispatched = false ∨ f.responseReceived = true)) := by
  intro op f
  obtain ⟨d, r, st⟩ := f
  cases d <;> cases r <;>
    simp [newError, KuduError.was_possibly_successful]

/-- C9: for a scanner, HasMoreRows is true exactly when the current
tablet has unfetched rows or additional tablets intersecting the scan's
key range remain to be scanned. -/
theorem HasMoreRows_iff : ∀ sc : KuduScanner,
    sc.HasMoreRows = true ↔ (CurrentTabletHasMoreData sc ∨ TabletsRemain sc) := by
  intro sc
  unfold KuduScanner.HasMoreRows CurrentTabletHasMoreData TabletsRemain
  simp only [Bool.or_eq_true, decide_eq_true_eq]
  constructor
  · intro h
    rcases h with h | h
    · left
      intro hnil
      rw [List.drop_eq_nil_iff] at hnil
      omega
    · right
      exact h
  · intro h
    rcases h with h | h
    · left
      by_contra hc
      push_neg at hc
      exact h (List.drop_eq_nil_of_le hc)
    · right
      exact h

/-- C10: release_failed_op hands the failed operation to the caller and
leaves the error owning none, so a second call on the same error has no
operation left to release. -/
theorem release_failed_op_once (e : KuduError) (op : KuduWriteOperation)
    (h : e.failedOp = some op) :
    e.release_failed_op.1 = some op ∧
    e.release_failed_op.2.failedOp = none ∧
    e.release_failed_op.2.release_failed_op.1 = none := by
  unfold KuduError.release_failed_op
  exact ⟨h, rfl, rfl⟩

/-! ## Location cache coalescing -/

theorem mrunFrom_append (s : MetaCacheSt) (xs ys : List MCmd) :
    mrunFrom s (xs ++ ys) =
      ((mrunFrom (mrunFrom s xs).1 ys).1,
       (mrunFrom s xs).2 ++ (mrunFrom (mrunFrom s xs).1 ys).2) := by
  induction xs generalizing s with
  | nil => simp [mrunFrom]
  | cons c cs ih => simp [mrunFrom, ih]

theorem inflightKeys_addWaiter (s : MetaCacheSt) (k : Nat × Nat) (c : Nat) :
    inflightKeys ⟨s.cached,
      s.inflight.map fun p => if p.1 = k then (p.1, p.2 ++ [c]) else p⟩ =
      inflightKeys s := by
  unfold inflightKeys
  simp only [List.map_map]
  apply List.map_congr_left
  intro p _
  by_cases h : p.1 = k <;> simp [h]

theorem mstep_protects (k : Nat × Nat) (s : MetaCacheSt) (c : MCmd)
    (hin : k ∈ inflightKeys s) (hnc : k ∉ s.cached) (hc : c ≠ MCmd.refreshDone k) :
    k ∈ inflightKeys (mstep s c).1 ∧ k ∉ (mstep s c).1.cached ∧
      MEvent.masterRpc k ∉ (mstep s c).2 := by
  cases c with
  | lookup d k' =>
      simp only [mstep]
      split
      · exact ⟨hin, hnc, by simp⟩
      · split
        · next hin' =>
            refine ⟨?_, hnc, by simp⟩
            rw [inflightKeys_addWaiter]
            exact hin
        · next hcache hin' =>
            have hne : k' ≠ k := fun h => hin' (h ▸ hin)
            refine ⟨?_, hnc, ?_⟩
            · unfold inflightKeys at hin ⊢
              simp only [List.map_append]
              exact List.mem_append_left _ hin
            · simp [hne.symm]
  | refreshDone k' =>
      have hk' : k' ≠ k := fun h => hc (by rw [h])
      simp only [mstep]
      split
      · next p hp =>
          refine ⟨?_, ?_, ?_⟩
          · unfold inflightKeys at hin ⊢
            rw [List.mem_map] at hin ⊢
            obtain ⟨q, hq, hqk⟩ := hin
            refine ⟨q, ?_, hqk⟩
            rw [List.mem_filter]
            refine ⟨hq, ?_⟩
            rw [hqk]
            simp [hk'.symm]
          · simp only [List.mem_append, List.mem_singleton]
            rintro (h | h)
            · exact hnc h
            · exact hk' h.symm
          · intro hmem
            rw [List.mem_map] at hmem
            obtain ⟨d, _, hd⟩ := hmem
            exact MEvent.noConfusion hd
      · exact ⟨hin, hnc, by simp⟩

theorem mrunFrom_protects (k : Nat × Nat) (cmds : List MCmd) (s : MetaCacheSt)
    (hin : k ∈ inflightKeys s) (hnc : k ∉ s.cached)
    (hcmds : ∀ c ∈ cmds, c ≠ MCmd.refreshDone k) :
    k ∈ inflightKeys (mrunFrom s cmds).1 ∧ k ∉ (mrunFrom s cmds).1.cached ∧
      (mrunFrom s cmds).2.count (MEvent.masterRpc k) = 0 := by
  induction cmds generalizing s with
  | nil => exact ⟨hin, hnc, rfl⟩
  | cons c cs ih =>
      obtain ⟨h1, h2, h3⟩ := mstep_protects k s c hin hnc (hcmds c (by simp))
      obtain ⟨g1, g2, g3⟩ :=
        ih (mstep s c).1 h1 h2 (fun d hd => hcmds d (List.mem_cons_of_mem c hd))
      refine ⟨?_, ?_, ?_⟩
      · simpa [mrunFrom] using g1
      · simpa [mrunFrom] using g2
      · simp [mrunFrom, List.count_append, g3, List.count_eq_zero.2 h3]

theorem lookup_first_step (s : MetaCacheSt) (a : Nat) (k : Nat × Nat)
    (hnc : k ∉ s.cached) :
    k ∈ inflightKeys (mstep s (MCmd.lookup a k)).1 ∧
    k ∉ (mstep s (MCmd.lookup a k)).1.cached ∧
    (mstep s (MCmd.lookup a k)).2.count (MEvent.masterRpc k) ≤ 1 := by
  simp only [mstep]
  rw [if_neg hnc]
  split
  · next hin =>
      refine ⟨?_, hnc, by simp⟩
      rw [inflightKeys_addWaiter]
      exact hin
  · refine ⟨?_, hnc, by simp⟩
    unfold inflightKeys
    simp

theorem lookup_suspends (s : MetaCacheSt) (b : Nat) (k : Nat × Nat)
    (hnc : k ∉ s.cached) (hin : k ∈ inflightKeys s) :
    (mstep s (MCmd.lookup b k)).2 = [] ∧
    ∃ w, (k, w) ∈ (mstep s (MCmd.lookup b k)).1.inflight ∧ b ∈ w := by
  simp only [mstep]
  rw [if_neg hnc, if_pos hin]
  refine ⟨rfl, ?_⟩
  unfold inflightKeys at hin
  rw [List.mem_map] at hin
  obtain ⟨p, hp, hpk⟩ := hin
  refine ⟨p.2 ++ [b], ?_, by simp⟩
  have hval : (k, p.2 ++ [b]) = if p.1 = k then (p.1, p.2 ++ [b]) else p := by
    rw [if_pos hpk, hpk]
  rw [hval]
  exact List.mem_map_of_mem _ hp

/-- C5: two lookups of the same uncached (table, key) pair, the second
interleaved anywhere while the first's master refresh is still in
flight, issue at most one master RPC in total; the second lookup emits
no RPC of its own and suspends on the in-flight refresh as a waiter. -/
theorem concurrent_lookup_single_rpc (pre mid : List MCmd) (a b : Nat)
    (k : Nat × Nat)
    (hk : k ∉ (mrun pre).1.cached)
    (hmid : ∀ c ∈ mid, c ≠ MCmd.refreshDone k) :
    (mrunFrom (mrun pre).1
        (MCmd.lookup a k :: (mid ++ [MCmd.lookup b k]))).2.count
      (MEvent.masterRpc k) ≤ 1 ∧
    (mstep (mrunFrom (mrun pre).1 (MCmd.lookup a k :: mid)).1
      (MCmd.lookup b k)).2 = [] ∧
    ∃ w, (k, w) ∈ (mstep (mrunFrom (mrun pre).1 (MCmd.lookup a k :: mid)).1
        (MCmd.lookup b k)).1.inflight ∧ b ∈ w := by
  obtain ⟨h1, h2, h3⟩ := lookup_first_step (mrun pre).1 a k hk
  obtain ⟨g1, g2, g3⟩ := mrunFrom_protects k mid _ h1 h2 hmid
  have hstate : (mrunFrom (mrun pre).1 (MCmd.lookup a k :: mid)).1 =
      (mrunFrom (mstep (mrun pre).1 (MCmd.lookup a k)).1 mid).1 := by
    simp [mrunFrom]
  obtain ⟨e1, e2⟩ := lookup_suspends
    (mrunFrom (mstep (mrun pre).1 (MCmd.lookup a k)).1 mid).1 b k g2 g1
  refine ⟨?_, ?_, ?_⟩
  · have hsplit : (mrunFrom (mrun pre).1
        (MCmd.lookup a k :: (mid ++ [MCmd.lookup b k]))).2 =
        (mstep (mrun pre).1 (MCmd.lookup a k)).2 ++
          ((mrunFrom (mstep (mrun pre).1 (MCmd.lookup a k)).1 mid).2 ++
            ((mstep (mrunFrom (mstep (mrun pre).1 (MCmd.lookup a k)).1 mid).1
              (MCmd.lookup b k)).2 ++ [])) := by
      simp [mrunFrom, mrunFrom_append]
    rw [hsplit]
    simp only [List.count_append, g3, e1]
    simpa using h3
  · rw [hstate]
    exact e1
  · rw [hstate]
    exact e2

/-- C5 witness: from the empty cache, a lookup by caller 0 followed
immediately by a lookup by caller 1 on the same key issues one master
RPC, and caller 1 is suspended on the waiter list. -/
theorem concurrent_lookup_single_rpc_witness :
    (mrunFrom (mrun []).1
        (MCmd.lookup 0 (1, 2) :: ([] ++ [MCmd.lookup 1 (1, 2)]))).2.count
      (MEvent.masterRpc (1, 2)) ≤ 1 ∧
    (mstep (mrunFrom (mrun []).1 (MCmd.lookup 0 (1, 2) :: [])).1
      (MCmd.lookup 1 (1, 2))).2 = [] ∧
    ∃ w, ((1, 2), w) ∈ (mstep (mrunFrom (mrun []).1
        (MCmd.lookup 0 (1, 2) :: [])).1 (MCmd.lookup 1 (1, 2))).1.inflight ∧
      1 ∈ w :=
  concurrent_lookup_single_rpc [] [] 0 1 (1, 2) (by simp [mrun, mrunFrom, MetaCacheSt.init])
    (by simp)

/-! ## Batcher callback invariants -/

theorem runFrom_append (s : FlushSys) (xs ys : List Cmd) :
    runFrom s (xs ++ ys) =
      ((runFrom (runFrom s xs).1 ys).1,
       (runFrom s xs).2 ++ (runFrom (runFrom s xs).1 ys).2) := by
  induction xs generalizing s with
  | nil => simp [runFrom]
  | cons c cs ih => simp [runFrom, ih]

theorem ClosedOK_extend (b : Nat) (B : BatcherSt) (tr ev : List Event)
    (h : ClosedOK b B tr)
    (hap : ∀ op, Event.applied b op ∉ ev)
    (hterm : ∀ op, Event.terminated b op ∉ ev)
    (hcb : Event.callback b ∉ ev) :
    ClosedOK b B (tr ++ ev) := by
  constructor
  · exact h.isFlushing
  · exact List.mem_append_left _ h.flushedEv
  · intro op
    rw [List.mem_append]
    constructor
    · intro hacc
      exact Or.inl ((h.acceptedIff op).1 hacc)
    · rintro (hh | hh)
      · exact (h.acceptedIff op).2 hh
      · exact absurd hh (hap op)
  · exact h.outSub
  · intro op hacc
    rcases h.accTerm op hacc with hh | hh
    · exact Or.inl hh
    · exact Or.inr (List.mem_append_left _ hh)
  · intro op hout hh
    rcases List.mem_append.1 hh with hh | hh
    · exact h.outNoTerm op hout hh
    · exact hterm op hh
  · rw [List.mem_append]
    constructor
    · intro hf
      exact Or.inl (h.firedIff.1 hf)
    · rintro (hh | hh)
      · exact h.firedIff.2 hh
      · exact absurd hh hcb
  · rw [List.count_append, h.cbCount, List.count_eq_zero.2 hcb]
    simp
  · exact h.emptyFired
  · exact h.firedEmpty

theorem init_inv : Inv FlushSys.init [] := by
  constructor
  · intro b hb
    exact absurd hb (Nat.not_lt_zero b)
  · rfl
  · rfl
  · rfl
  · intro op
    constructor
    · intro h
      exact absurd h (List.not_mem_nil op)
    · intro h
      exact absurd h (List.not_mem_nil _)
  · intro b op h
    exact absurd h (List.not_mem_nil _)
  · intro b h
    exact absurd h (List.not_mem_nil _)
  · intro b h
    exact absurd h (List.not_mem_nil _)
  · intro b op h
    exact absurd h (List.not_mem_nil _)

theorem stepApply_inv (s : FlushSys) (tr : List Event) (op : Nat)
    (hI : Inv s tr) : Inv (stepApply s op).1 (tr ++ (stepApply s op).2) := by
  simp only [stepApply]
  constructor
  · intro b hb
    have hb' : b < s.nclosed := hb
    refine ClosedOK_extend b _ tr _ (hI.closedOK b hb') ?_ ?_ ?_
    · intro o ho
      rw [List.mem_singleton] at ho
      injection ho with h1 h2
      omega
    · intro o ho
      rw [List.mem_singleton] at ho
      exact Event.noConfusion ho
    · intro ho
      rw [List.mem_singleton] at ho
      exact Event.noConfusion ho
  · exact hI.curFlushing
  · exact hI.curFired
  · show s.cur.outstanding ++ [op] = s.cur.accepted ++ [op]
    rw [hI.curOut]
  · intro o
    show o ∈ s.cur.accepted ++ [op] ↔
      Event.applied s.nclosed o ∈ tr ++ [Event.applied s.nclosed op]
    rw [List.mem_append, List.mem_append, List.mem_singleton, List.mem_singleton]
    constructor
    · rintro (h | h)
      · exact Or.inl ((hI.curAcc o).1 h)
      · right
        rw [h]
    · rintro (h | h)
      · exact Or.inl ((hI.curAcc o).2 h)
      · injection h with h1 h2
        right
        exact h2
  · intro b o h
    rcases List.mem_append.1 h with h | h
    · exact hI.termLt b o h
    · rw [List.mem_singleton] at h
      exact Event.noConfusion h
  · intro b h
    rcases List.mem_append.1 h with h | h
    · exact hI.flushedLt b h
    · rw [List.mem_singleton] at h
      exact Event.noConfusion h
  · intro b h
    rcases List.mem_append.1 h with h | h
    · exact hI.cbLt b h
    · rw [List.mem_singleton] at h
      exact Event.noConfusion h
  · intro b o h
    rcases List.mem_append.1 h with h | h
    · exact hI.appliedLe b o h
    · rw [List.mem_singleton] at h
      injection h with h1 h2
      exact Nat.le_of_eq h1

theorem stepFlush_inv (s : FlushSys) (tr : List Event) (hI : Inv s tr) :
    Inv (stepFlush s).1 (tr ++ (stepFlush s).2) := by
  have hcbtr : Event.callback s.nclosed ∉ tr := fun h =>
    absurd (hI.cbLt _ h) (lt_irrefl _)
  unfold stepFlush
  split
  · next hemp =>
      have hout : s.cur.outstanding = [] := List.isEmpty_iff.1 hemp
      have hacc : s.cur.accepted = [] := by rw [← hI.curOut]; exact hout
      constructor
      · intro b hb
        have hb' : b < s.nclosed + 1 := hb
        by_cases hbe : b = s.nclosed
        · subst hbe
          show ClosedOK s.nclosed (Function.update s.closedF s.nclosed
              { s.cur with flushing := true, fired := true } s.nclosed)
            (tr ++ [Event.flushed s.nclosed, Event.callback s.nclosed])
          rw [Function.update_same]
          constructor
          · rfl
          · exact List.mem_append_right _ (List.mem_cons_self _ _)
          · intro o
            show o ∈ s.cur.accepted ↔ _
            rw [hacc]
            simp only [List.not_mem_nil, false_iff]
            intro h
            rcases List.mem_append.1 h with h | h
            · have h2 := (hI.curAcc o).2 h
              rw [hacc] at h2
              exact List.not_mem_nil o h2
            · simp at h
          · intro o ho
            show o ∈ s.cur.accepted
            rw [← hI.curOut]
            exact ho
          · intro o ho
            have ho' : o ∈ s.cur.accepted := ho
            rw [hacc] at ho'
            exact absurd ho' (List.not_mem_nil o)
          · intro o ho
            have ho' : o ∈ s.cur.outstanding := ho
            rw [hout] at ho'
            exact absurd ho' (List.not_mem_nil o)
          · constructor
            · intro _
              exact List.mem_append_right _
                (List.mem_cons_of_mem _ (List.mem_cons_self _ _))
            · intro _
              rfl
          · show List.count (Event.callback s.nclosed)
              (tr ++ [Event.flushed s.nclosed, Event.callback s.nclosed]) = _
            rw [List.count_append, List.count_eq_zero.2 hcbtr]
            simp [List.count_cons]
          · intro _
            rfl
          · intro _
            exact hout
        · have hblt : b < s.nclosed := by omega
          show ClosedOK b (Function.update s.closedF s.nclosed
              { s.cur with flushing := true, fired := true } b)
            (tr ++ [Event.flushed s.nclosed, Event.callback s.nclosed])
          rw [Function.update_noteq hbe]
          refine ClosedOK_extend b _ tr _ (hI.closedOK b hblt) ?_ ?_ ?_
          · intro o ho
            simp at ho
          · intro o ho
            simp at ho
          · intro ho
            simp at ho
            exact hbe ho
      · rfl
      · rfl
      · rfl
      · intro o
        constructor
        · intro h
          exact absurd (show o ∈ ([] : List Nat) from h) (List.not_mem_nil o)
        · intro h
          rcases List.mem_append.1 h with h | h
          · have h2 : s.nclosed + 1 ≤ s.nclosed := hI.appliedLe _ _ h
            exact absurd h2 (by omega)
          · simp at h
      · intro b o h
        show b < s.nclosed + 1
        rcases List.mem_append.1 h with h | h
        · have := hI.termLt b o h
          omega
        · simp at h
      · intro b h
        show b < s.nclosed + 1
        rcases List.mem_append.1 h with h | h
        · have := hI.flushedLt b h
          omega
        · simp at h
          omega
      · intro b h
        show b < s.nclosed + 1
        rcases List.mem_append.1 h with h | h
        · have := hI.cbLt b h
          omega
        · simp at h
          omega
      · intro b o h
        show b ≤ s.nclosed + 1
        rcases List.mem_append.1 h with h | h
        · have := hI.appliedLe b o h
          omega
        · simp at h
  · next hemp =>
      have hne : s.cur.outstanding ≠ [] := by
        intro hh
        exact hemp (by rw [hh]; rfl)
      constructor
      · intro b hb
        have hb' : b < s.nclosed + 1 := hb
        by_cases hbe : b = s.nclosed
        · subst hbe
          show ClosedOK s.nclosed (Function.update s.closedF s.nclosed
              { s.cur with flushing := true } s.nclosed)
            (tr ++ [Event.flushed s.nclosed])
          rw [Function.update_same]
          constructor
          · rfl
          · exact List.mem_append_right _ (List.mem_cons_self _ _)
          · intro o
            show o ∈ s.cur.accepted ↔ _
            constructor
            · intro h
              exact List.mem_append_left _ ((hI.curAcc o).1 h)
            · intro h
              rcases List.mem_append.1 h with h | h
              · exact (hI.curAcc o).2 h
              · simp at h
          · intro o ho
            show o ∈ s.cur.accepted
            rw [← hI.curOut]
            exact ho
          · intro o ho
            left
            show o ∈ s.cur.outstanding
            rw [hI.curOut]
            exact ho
          · intro o ho hmem
            rcases List.mem_append.1 hmem with h | h
            · exact absurd (hI.termLt _ _ h) (lt_irrefl _)
            · simp at h
          · constructor
            · intro h
              have h2 : s.cur.fired = true := h
              rw [hI.curFired] at h2
              exact Bool.noConfusion h2
            · intro h
              rcases List.mem_append.1 h with h | h
              · exact absurd (hI.cbLt _ h) (lt_irrefl _)
              · simp at h
          · show List.count (Event.callback s.nclosed)
              (tr ++ [Event.flushed s.nclosed]) = _
            rw [List.count_append, List.count_eq_zero.2 hcbtr]
            have hf : ({ s.cur with flushing := true } : BatcherSt).fired = false :=
              hI.curFired
            rw [hf]
            simp
          · intro h
            exact absurd h hne
          · intro h
            have h2 : s.cur.fired = true := h
            rw [hI.curFired] at h2
            exact Bool.noConfusion h2
        · have hblt : b < s.nclosed := by omega
          show ClosedOK b (Function.update s.closedF s.nclosed
              { s.cur with flushing := true } b)
            (tr ++ [Event.flushed s.nclosed])
          rw [Function.update_noteq hbe]
          refine ClosedOK_extend b _ tr _ (hI.closedOK b hblt) ?_ ?_ ?_
          · intro o ho
            simp at ho
          · intro o ho
            simp at ho
          · intro ho
            simp at ho
      · rfl
      · rfl
      · rfl
      · intro o
        constructor
        · intro h
          exact absurd (show o ∈ ([] : List Nat) from h) (List.not_mem_nil o)
        · intro h
          rcases List.mem_append.1 h with h | h
          · have h2 : s.nclosed + 1 ≤ s.nclosed := hI.appliedLe _ _ h
            exact absurd h2 (by omega)
          · simp at h
      · intro b o h
        show b < s.nclosed + 1
        rcases List.mem_append.1 h with h | h
        · have := hI.termLt b o h
          omega
        · simp at h
      · intro b h
        show b < s.nclosed + 1
        rcases List.mem_append.1 h with h | h
        · have := hI.flushedLt b h
          omega
        · simp at h
          omega
      · intro b h
        show b < s.nclosed + 1
        rcases List.mem_append.1 h with h | h
        · have := hI.cbLt b h
          omega
        · simp at h
      · intro b o h
        show b ≤ s.nclosed + 1
        rcases List.mem_append.1 h with h | h
        · have := hI.appliedLe b o h
          omega
        · simp at h

theorem stepRespond_inv (s : FlushSys) (tr : List Event) (b : Nat) (op : Nat)
    (hI : Inv s tr) : Inv (stepRespond s b op).1 (tr ++ (stepRespond s b op).2) := by
  unfold stepRespond
  split
  · next hbn =>
      split
      · next hop =>
          have hCO := hI.closedOK b hbn
          have hfired : (s.closedF b).fired = false := by
            cases hf : (s.closedF b).fired
            · rfl
            · have h2 := hCO.firedEmpty hf
              rw [h2] at hop
              exact absurd hop (List.not_mem_nil op)
          have hrest_sub : ∀ o, o ∈ (s.closedF b).outstanding.filter
              (fun o => decide (o ≠ op)) → o ∈ (s.closedF b).outstanding :=
            fun o ho => (List.mem_filter.1 ho).1
          have hrest_ne : ∀ o, o ∈ (s.closedF b).outstanding.filter
              (fun o => decide (o ≠ op)) → o ≠ op := fun o ho =>
            of_decide_eq_true (List.mem_filter.1 ho).2
          have hmem_rest : ∀ o, o ∈ (s.closedF b).outstanding → o ≠ op →
              o ∈ (s.closedF b).outstanding.filter (fun o => decide (o ≠ op)) :=
            fun o ho hne => List.mem_filter.2 ⟨ho, decide_eq_true hne⟩
          have hcbtr : Event.callback b ∉ tr := by
            intro h
            have h2 := hCO.firedIff.2 h
            rw [hfired] at h2
            exact Bool.noConfusion h2
          split
          · next hcond =>
              rw [Bool.and_eq_true] at hcond
              have hrest_nil : (s.closedF b).outstanding.filter
                  (fun o => decide (o ≠ op)) = [] := List.isEmpty_iff.1 hcond.1
              constructor
              · intro b' hb'
                have hb'' : b' < s.nclosed := hb'
                by_cases hbe : b' = b
                · subst hbe
                  show ClosedOK b' (Function.update s.closedF b'
                      { s.closedF b' with
                        outstanding := (s.closedF b').outstanding.filter
                          (fun o => decide (o ≠ op)),
                        fired := true } b')
                    (tr ++ [Event.terminated b' op, Event.callback b'])
                  rw [Function.update_same]
                  constructor
                  · exact hCO.isFlushing
                  · exact List.mem_append_left _ hCO.flushedEv
                  · intro o
                    show o ∈ (s.closedF b').accepted ↔ _
                    constructor
                    · intro h
                      exact List.mem_append_left _ ((hCO.acceptedIff o).1 h)
                    · intro h
                      rcases List.mem_append.1 h with h | h
                      · exact (hCO.acceptedIff o).2 h
                      · simp at h
                  · intro o ho
                    show o ∈ (s.closedF b').accepted
                    exact hCO.outSub o (hrest_sub o ho)
                  · intro o ho
                    have ho' : o ∈ (s.closedF b').accepted := ho
                    rcases hCO.accTerm o ho' with h | h
                    · by_cases hoe : o = op
                      · subst hoe
                        right
                        exact List.mem_append_right _ (List.mem_cons_self _ _)
                      · left
                        exact hmem_rest o h hoe
                    · right
                      exact List.mem_append_left _ h
                  · intro o ho hmem
                    rcases List.mem_append.1 hmem with h | h
                    · exact hCO.outNoTerm o (hrest_sub o ho) h
                    · rcases List.mem_cons.1 h with h | h
                      · injection h with h1 h2
                        exact hrest_ne o ho h2
                      · simp at h
                  · constructor
                    · intro _
                      exact List.mem_append_right _
                        (List.mem_cons_of_mem _ (List.mem_cons_self _ _))
                    · intro _
                      rfl
                  · show List.count (Event.callback b')
                      (tr ++ [Event.terminated b' op, Event.callback b']) = _
                    rw [List.count_append, List.count_eq_zero.2 hcbtr]
                    simp [List.count_cons]
                  · intro _
                    rfl
                  · intro _
                    exact hrest_nil
                · show ClosedOK b' (Function.update s.closedF b
                      { s.closedF b with
                        outstanding := (s.closedF b).outstanding.filter
                          (fun o => decide (o ≠ op)),
                        fired := true } b')
                    (tr ++ [Event.terminated b op, Event.callback b])
                  rw [Function.update_noteq hbe]
                  refine ClosedOK_extend b' _ tr _ (hI.closedOK b' hb'') ?_ ?_ ?_
                  · intro o ho
                    simp at ho
                  · intro o ho
                    simp at ho
                    exact hbe ho.1
                  · intro ho
                    simp at ho
                    exact hbe ho
              · exact hI.curFlushing
              · exact hI.curFired
              · exact hI.curOut
              · intro o
                show o ∈ s.cur.accepted ↔ _
                constructor
                · intro h
                  exact List.mem_append_left _ ((hI.curAcc o).1 h)
                · intro h
                  rcases List.mem_append.1 h with h | h
                  · exact (hI.curAcc o).2 h
                  · simp at h
              · intro b' o h
                show b' < s.nclosed
                rcases List.mem_append.1 h with h | h
                · exact hI.termLt b' o h
                · simp at h
                  rw [h.1]
                  exact hbn
              · intro b' h
                show b' < s.nclosed
                rcases List.mem_append.1 h with h | h
                · exact hI.flushedLt b' h
                · simp at h
              · intro b' h
                show b' < s.nclosed
                rcases List.mem_append.1 h with h | h
                · exact hI.cbLt b' h
                · simp at h
                  rw [h]
                  exact hbn
              · intro b' o h
                show b' ≤ s.nclosed
                rcases List.mem_append.1 h with h | h
                · exact hI.appliedLe b' o h
                · simp at h
          · next hcond =>
              have hrne : (s.closedF b).outstanding.filter
                  (fun o => decide (o ≠ op)) ≠ [] := by
                intro hh
                exact hcond (by rw [hh, hfired]; rfl)
              constructor
              · intro b' hb'
                have hb'' : b' < s.nclosed := hb'
                by_cases hbe : b' = b
                · subst hbe
                  show ClosedOK b' (Function.update s.closedF b'
                      { s.closedF b' with
                        outstanding := (s.closedF b').outstanding.filter
                          (fun o => decide (o ≠ op)) } b')
                    (tr ++ [Event.terminated b' op])
                  rw [Function.update_same]
                  constructor
                  · exact hCO.isFlushing
                  · exact List.mem_append_left _ hCO.flushedEv
                  · intro o
                    show o ∈ (s.closedF b').accepted ↔ _
                    constructor
                    · intro h
                      exact List.mem_append_left _ ((hCO.acceptedIff o).1 h)
                    · intro h
                      rcases List.mem_append.1 h with h | h
                      · exact (hCO.acceptedIff o).2 h
                      · simp at h
                  · intro o ho
                    show o ∈ (s.closedF b').accepted
                    exact hCO.outSub o (hrest_sub o ho)
                  · intro o ho
                    have ho' : o ∈ (s.closedF b').accepted := ho
                    rcases hCO.accTerm o ho' with h | h
                    · by_cases hoe : o = op
                      · subst hoe
                        right
                        exact List.mem_append_right _ (List.mem_cons_self _ _)
                      · left
                        exact hmem_rest o h hoe
                    · right
                      exact List.mem_append_left _ h
                  · intro o ho hmem
                    rcases List.mem_append.1 hmem with h | h
                    · exact hCO.outNoTerm o (hrest_sub o ho) h
                    · rcases List.mem_cons.1 h with h | h
                      · injection h with h1 h2
                        exact hrest_ne o ho h2
                      · simp at h
                  · constructor
                    · intro h
                      have h2 : (s.closedF b').fired = true := h
                      rw [hfired] at h2
                      exact Bool.noConfusion h2
                    · intro h
                      rcases List.mem_append.1 h with h | h
                      · exact absurd h hcbtr
                      · simp at h
                  · show List.count (Event.callback b')
                      (tr ++ [Event.terminated b' op]) =
                      if (s.closedF b').fired then 1 else 0
                    rw [List.count_append, List.count_eq_zero.2 hcbtr, hfired]
                    simp
                  · intro h
                    exact absurd h hrne
                  · intro h
                    have h2 : (s.closedF b').fired = true := h
                    rw [hfired] at h2
                    exact Bool.noConfusion h2
                · show ClosedOK b' (Function.update s.closedF b
                      { s.closedF b with
                        outstanding := (s.closedF b).outstanding.filter
                          (fun o => decide (o ≠ op)) } b')
                    (tr ++ [Event.terminated b op])
                  rw [Function.update_noteq hbe]
                  refine ClosedOK_extend b' _ tr _ (hI.closedOK b' hb'') ?_ ?_ ?_
                  · intro o ho
                    simp at ho
                  · intro o ho
                    simp at ho
                    exact hbe ho.1
                  · intro ho
                    simp at ho
              · exact hI.curFlushing
              · exact hI.curFired
              · exact hI.curOut
              · intro o
                show o ∈ s.cur.accepted ↔ _
                constructor
                · intro h
                  exact List.mem_append_left _ ((hI.curAcc o).1 h)
                · intro h
                  rcases List.mem_append.1 h with h | h
                  · exact (hI.curAcc o).2 h
                  · simp at h
              · intro b' o h
                show b' < s.nclosed
                rcases List.mem_append.1 h with h | h
                · exact hI.termLt b' o h
                · simp at h
                  rw [h.1]
                  exact hbn
              · intro b' h
                show b' < s.nclosed
                rcases List.mem_append.1 h with h | h
                · exact hI.flushedLt b' h
                · simp at h
              · intro b' h
                show b' < s.nclosed
                rcases List.mem_append.1 h with h | h
                · exact hI.cbLt b' h
                · simp at h
              · intro b' o h
                show b' ≤ s.nclosed
                rcases List.mem_append.1 h with h | h
                · exact hI.appliedLe b' o h
                · simp at h
      · next hop =>
          rw [List.append_nil]
          exact hI
  · next hbn =>
      rw [List.append_nil]
      exact hI

theorem step_inv (s : FlushSys) (tr : List Event) (c : Cmd) (hI : Inv s tr) :
    Inv (step s c).1 (tr ++ (step s c).2) := by
  cases c with
  | apply op => exact stepApply_inv s tr op hI
  | flushAsync => exact stepFlush_inv s tr hI
  | respond b op => exact stepRespond_inv s tr b op hI

theorem runFrom_inv (cmds : List Cmd) (s : FlushSys) (tr : List Event)
    (hI : Inv s tr) : Inv (runFrom s cmds).1 (tr ++ (runFrom s cmds).2) := by
  induction cmds generalizing s tr with
  | nil => simpa [runFrom] using hI
  | cons c cs ih =>
      have h1 := step_inv s tr c hI
      have h2 := ih (step s c).1 (tr ++ (step s c).2) h1
      simpa [runFrom, List.append_assoc] using h2

theorem run_inv (cmds : List Cmd) : Inv (run cmds).1 (run cmds).2 := by
  have h := runFrom_inv cmds FlushSys.init [] init_inv
  simpa [run] using h

theorem step_frozen (s : FlushSys) (tr : List Event) (c : Cmd) (b : Nat)
    (hI : Inv s tr) (hb : b < s.nclosed) (hf : (s.closedF b).fired = true) :
    b < (step s c).1.nclosed ∧ (step s c).1.closedF b = s.closedF b := by
  cases c with
  | apply op => exact ⟨hb, rfl⟩
  | flushAsync =>
      have hbe : b ≠ s.nclosed := by omega
      by_cases hemp : s.cur.outstanding.isEmpty = true
      · have hstep : step s Cmd.flushAsync =
            (⟨s.nclosed + 1,
              Function.update s.closedF s.nclosed
                { s.cur with flushing := true, fired := true },
              BatcherSt.fresh⟩,
             [Event.flushed s.nclosed, Event.callback s.nclosed]) := by
          show stepFlush s = _
          unfold stepFlush
          rw [if_pos hemp]
        rw [hstep]
        exact ⟨by show b < s.nclosed + 1; omega, Function.update_noteq hbe _ _⟩
      · have hstep : step s Cmd.flushAsync =
            (⟨s.nclosed + 1,
              Function.update s.closedF s.nclosed { s.cur with flushing := true },
              BatcherSt.fresh⟩,
             [Event.flushed s.nclosed]) := by
          show stepFlush s = _
          unfold stepFlush
          rw [if_neg hemp]
        rw [hstep]
        exact ⟨by show b < s.nclosed + 1; omega, Function.update_noteq hbe _ _⟩
  | respond b' op =>
      by_cases hb'n : b' < s.nclosed
      · by_cases hop : op ∈ (s.closedF b').outstanding
        · have hbe : b ≠ b' := by
            intro hh
            subst hh
            have h2 := (hI.closedOK b hb).firedEmpty hf
            rw [h2] at hop
            exact absurd hop (List.not_mem_nil op)
          by_cases hcond : (((s.closedF b').outstanding.filter
              (fun o => decide (o ≠ op))).isEmpty && !(s.closedF b').fired) = true
          · have hstep : step s (Cmd.respond b' op) =
                (⟨s.nclosed,
                  Function.update s.closedF b'
                    { s.closedF b' with
                      outstanding := (s.closedF b').outstanding.filter
                        (fun o => decide (o ≠ op)),
                      fired := true },
                  s.cur⟩,
                 [Event.terminated b' op, Event.callback b']) := by
              show stepRespond s b' op = _
              unfold stepRespond
              rw [if_pos hb'n, if_pos hop, if_pos hcond]
            rw [hstep]
            exact ⟨hb, Function.update_noteq hbe _ _⟩
          · have hstep : step s (Cmd.respond b' op) =
                (⟨s.nclosed,
                  Function.update s.closedF b'
                    { s.closedF b' with
                      outstanding := (s.closedF b').outstanding.filter
                        (fun o => decide (o ≠ op)) },
                  s.cur⟩,
                 [Event.terminated b' op]) := by
              show stepRespond s b' op = _
              unfold stepRespond
              rw [if_pos hb'n, if_pos hop, if_neg hcond]
            rw [hstep]
            exact ⟨hb, Function.update_noteq hbe _ _⟩
        · have hstep : step s (Cmd.respond b' op) = (s, []) := by
            show stepRespond s b' op = _
            unfold stepRespond
            rw [if_pos hb'n, if_neg hop]
          rw [hstep]
          exact ⟨hb, rfl⟩
      · have hstep : step s (Cmd.respond b' op) = (s, []) := by
          show stepRespond s b' op = _
          unfold stepRespond
          rw [if_neg hb'n]
        rw [hstep]
        exact ⟨hb, rfl⟩

theorem runFrom_frozen (cmds : List Cmd) (s : FlushSys) (tr : List Event)
    (b : Nat) (hI : Inv s tr) (hb : b < s.nclosed)
    (hf : (s.closedF b).fired = true) :
    b < (runFrom s cmds).1.nclosed ∧
      (runFrom s cmds).1.closedF b = s.closedF b := by
  induction cmds generalizing s tr with
  | nil => exact ⟨hb, rfl⟩
  | cons c cs ih =>
      obtain ⟨h1, h2⟩ := step_frozen s tr c b hI hb hf
      have hI' := step_inv s tr c hI
      obtain ⟨g1, g2⟩ := ih (step s c).1 (tr ++ (step s c).2) hI' h1
        (by rw [h2]; exact hf)
      exact ⟨g1, g2.trans h2⟩

theorem cb_at_most_once (cmds : List Cmd) (b : Nat) :
    (run cmds).2.count (Event.callback b) ≤ 1 := by
  have hI := run_inv cmds
  by_cases hb : b < (run cmds).1.nclosed
  · rw [(hI.closedOK b hb).cbCount]
    split <;> omega
  · rw [List.count_eq_zero.2 (fun h => hb (hI.cbLt b h))]
    omega

theorem cb_after_terminated (cmds ds : List Cmd) (b op : Nat)
    (hcb : Event.callback b ∈ (run cmds).2)
    (hap : Event.applied b op ∈ (run (cmds ++ ds)).2) :
    Event.terminated b op ∈ (run cmds).2 := by
  have hI := run_inv cmds
  have hb : b < (run cmds).1.nclosed := hI.cbLt b hcb
  have hf : ((run cmds).1.closedF b).fired = true :=
    (hI.closedOK b hb).firedIff.2 hcb
  have hfe : ((run cmds).1.closedF b).outstanding = [] :=
    (hI.closedOK b hb).firedEmpty hf
  obtain ⟨g1, g2⟩ := runFrom_frozen ds (run cmds).1 (run cmds).2 b hI hb hf
  have hI' := runFrom_inv ds (run cmds).1 (run cmds).2 hI
  have hdec : run (cmds ++ ds) =
      ((runFrom (run cmds).1 ds).1,
       (run cmds).2 ++ (runFrom (run cmds).1 ds).2) := by
    unfold run
    rw [runFrom_append]
  rw [hdec] at hap
  have hacc : op ∈ ((runFrom (run cmds).1 ds).1.closedF b).accepted :=
    ((hI'.closedOK b g1).acceptedIff op).2 hap
  rw [g2] at hacc
  rcases (hI.closedOK b hb).accTerm op hacc with h | h
  · rw [hfe] at h
    exact absurd h (List.not_mem_nil op)
  · exact h

theorem cb_fires_on_completion (cmds : List Cmd) (b : Nat)
    (hfl : Event.flushed b ∈ (run cmds).2)
    (hterm : ∀ op, Event.applied b op ∈ (run cmds).2 →
      Event.terminated b op ∈ (run cmds).2) :
    (run cmds).2.count (Event.callback b) = 1 := by
  have hI := run_inv cmds
  have hb : b < (run cmds).1.nclosed := hI.flushedLt b hfl
  have hCO := hI.closedOK b hb
  have hout : ((run cmds).1.closedF b).outstanding = [] := by
    rcases hx : ((run cmds).1.closedF b).outstanding with _ | ⟨o, os⟩
    · rfl
    · exfalso
      have ho : o ∈ ((run cmds).1.closedF b).outstanding := by
        rw [hx]
        exact List.mem_cons_self _ _
      have hacc := hCO.outSub o ho
      have happ := (hCO.acceptedIff o).1 hacc
      have ht := hterm o happ
      exact hCO.outNoTerm o ho ht
  have hf := hCO.emptyFired hout
  rw [hCO.cbCount, hf]
  simp

theorem cb_any_order :
    ∃ cmds1 cmds2 : List Cmd,
      Event.callback 0 ∈ (run cmds1).2 ∧ Event.callback 1 ∈ (run cmds1).2 ∧
      (run cmds1).2.indexOf (Event.callback 0) <
        (run cmds1).2.indexOf (Event.callback 1) ∧
      Event.callback 0 ∈ (run cmds2).2 ∧ Event.callback 1 ∈ (run cmds2).2 ∧
      (run cmds2).2.indexOf (Event.callback 1) <
        (run cmds2).2.indexOf (Event.callback 0) := by
  refine ⟨[Cmd.apply 1, Cmd.flushAsync, Cmd.apply 2, Cmd.flushAsync,
           Cmd.respond 0 1, Cmd.respond 1 2],
          [Cmd.apply 1, Cmd.flushAsync, Cmd.apply 2, Cmd.flushAsync,
           Cmd.respond 1 2, Cmd.respond 0 1], ?_, ?_, ?_, ?_, ?_, ?_⟩ <;> decide

theorem cb_empty_flush_immediate (cmds : List Cmd)
    (hacc : (run cmds).1.cur.accepted = []) :
    Event.callback (run cmds).1.nclosed ∈
      (run (cmds ++ [Cmd.flushAsync])).2 := by
  have hI := run_inv cmds
  have hout : (run cmds).1.cur.outstanding = [] := by
    rw [hI.curOut, hacc]
  have hdec : run (cmds ++ [Cmd.flushAsync]) =
      ((runFrom (run cmds).1 [Cmd.flushAsync]).1,
       (run cmds).2 ++ (runFrom (run cmds).1 [Cmd.flushAsync]).2) := by
    unfold run
    rw [runFrom_append]
  rw [hdec]
  refine List.mem_append_right _ ?_
  have hev : (runFrom (run cmds).1 [Cmd.flushAsync]).2 =
      (stepFlush (run cmds).1).2 := by
    simp [runFrom, step]
  rw [hev]
  unfold stepFlush
  rw [if_pos (by rw [hout]; rfl)]
  exact List.mem_cons_of_mem _ (List.mem_cons_self _ _)

/-- C1: over every interleaving of Apply, FlushAsync and response
deliveries: each batcher's completion callback fires at most once; it
fires only after every operation the batcher accepted has terminated
(even counting operations observed in any extension of the run); once a
batcher is flushed and all its accepted operations have terminated, its
callback has fired exactly once; callbacks of distinct batchers are
independent and can fire in either relative order; and a FlushAsync
with no operations applied since the previous FlushAsync emits its
callback immediately, within the FlushAsync step itself. -/
theorem batcher_callback_contract :
    (∀ cmds b, (run cmds).2.count (Event.callback b) ≤ 1) ∧
    (∀ cmds ds b op, Event.callback b ∈ (run cmds).2 →
      Event.applied b op ∈ (run (cmds ++ ds)).2 →
      Event.terminated b op ∈ (run cmds).2) ∧
    (∀ cmds b, Event.flushed b ∈ (run cmds).2 →
      (∀ op, Event.applied b op ∈ (run cmds).2 →
        Event.terminated b op ∈ (run cmds).2) →
      (run cmds).2.count (Event.callback b) = 1) ∧
    (∃ cmds1 cmds2 : List Cmd,
      Event.callback 0 ∈ (run cmds1).2 ∧ Event.callback 1 ∈ (run cmds1).2 ∧
      (run cmds1).2.indexOf (Event.callback 0) <
        (run cmds1).2.indexOf (Event.callback 1) ∧
      Event.callback 0 ∈ (run cmds2).2 ∧ Event.callback 1 ∈ (run cmds2).2 ∧
      (run cmds2).2.indexOf (Event.callback 1) <
        (run cmds2).2.indexOf (Event.callback 0)) ∧
    (∀ cmds, (run cmds).1.cur.accepted = [] →
      Event.callback (run cmds).1.nclosed ∈
        (run (cmds ++ [Cmd.flushAsync])).2) :=
  ⟨cb_at_most_once, cb_after_terminated, cb_fires_on_completion,
   cb_any_order, cb_empty_flush_immediate⟩

/-- C1 witness: in the run Apply(1), FlushAsync, respond, the callback
fired only after op 1 terminated, as the contract's ordering part
states at this concrete input. -/
theorem batcher_callback_contract_witness :
    Event.terminated 0 1 ∈
      (run [Cmd.apply 1, Cmd.flushAsync, Cmd.respond 0 1]).2 :=
  batcher_callback_contract.2.1 [Cmd.apply 1, Cmd.flushAsync, Cmd.respond 0 1]
    [] 0 1 (by decide) (by decide)

/-- C10 witness: releasing from a concrete error yields the op once and
nothing on a second release. -/
theorem release_failed_op_once_witness :
    (KuduError.release_failed_op ⟨some ⟨1, 8⟩, Status.timedOut, true⟩).1 =
      some ⟨1, 8⟩ ∧
    (KuduError.release_failed_op
      ⟨some ⟨1, 8⟩, Status.timedOut, true⟩).2.failedOp = none ∧
    ((KuduError.release_failed_op
      ⟨some ⟨1, 8⟩, Status.timedOut, true⟩).2.release_failed_op).1 = none :=
  release_failed_op_once ⟨some ⟨1, 8⟩, Status.timedOut, true⟩ ⟨1, 8⟩ rfl

end KuduClientModel
